import Mathlib

/-!
Verification of the openapi-to-mcp conversion and request-marshaling engine.

The definitions below are a shallow embedding of the TypeScript source:
  * `src/converter/index.ts`   (OpenAPIToMCPConverter: parseOperations,
    convertParameterToZodSchema)
  * `src/client/http-client.ts` (HttpClient, second variant: replacePathParams,
    extractQueryParams, extractRequestBody, extractApiKeyInfo,
    executeOperation)
  * the loader validation (validateOpenAPISpec) and the MCP server
    generator invocation handler (MCPServerGenerator.generateServer).

JavaScript runtime values are modelled by `JsValue`; absence of an object
property is modelled by a `none` lookup on an association list.  Machine
floats are modelled as exact decimals `m * 10 ^ e`, which is faithful for
every value the claims exercise.
-/

mutual

/-- Model of a JavaScript/JSON runtime value.  Numbers are exact decimals
`m * 10 ^ e` (JS floats are irrelevant to the verified properties).
Arrays and objects carry their own list types so that every function on
values is structural. -/
inductive JsValue where
  | null : JsValue
  | bool (b : Bool) : JsValue
  | num (m : Int) (e : Int) : JsValue
  | str (s : String) : JsValue
  | arr (xs : JsList) : JsValue
  | obj (fs : JsFields) : JsValue

/-- A list of JS values (an array literal). -/
inductive JsList where
  | nil : JsList
  | cons (hd : JsValue) (tl : JsList) : JsList

/-- The fields of a JS object, in insertion order. -/
inductive JsFields where
  | nil : JsFields
  | cons (key : String) (val : JsValue) (tl : JsFields) : JsFields

end

/-- Build a `JsList` from a Lean list. -/
def JsList.ofList : List JsValue → JsList
  | [] => .nil
  | x :: xs => .cons x (JsList.ofList xs)

/-- View a `JsList` as a Lean list. -/
def JsList.toList : JsList → List JsValue
  | .nil => []
  | .cons hd tl => hd :: JsList.toList tl

/-- Build `JsFields` from an association list. -/
def JsFields.ofList : List (String × JsValue) → JsFields
  | [] => .nil
  | (k, v) :: fs => .cons k v (JsFields.ofList fs)

/-- JavaScript truthiness of a value (`undefined` is modelled as absence,
never as a `JsValue`). -/
def jsTruthy : JsValue → Bool
  | .null => false
  | .bool b => b
  | .num m _ => m != 0
  | .str s => s ≠ ""
  | .arr _ => true
  | .obj _ => true

/-- Property lookup on a JS object modelled as an association list;
`none` plays the role of `undefined`. -/
def jsLookup {α : Type} : List (String × α) → String → Option α
  | [], _ => none
  | (k, v) :: rest, n => if k = n then some v else jsLookup rest n

/-- Property assignment `o[k] = v` on a modelled JS object: overwrites in
place when the key exists, otherwise appends. -/
def jsAssign {α : Type} : List (String × α) → String → α → List (String × α)
  | [], k, v => [(k, v)]
  | (k0, v0) :: rest, k, v =>
      if k0 = k then (k, v) :: rest else (k0, v0) :: jsAssign rest k v

/-- Decimal digits of a natural number, as a string. -/
def natDigits (n : Nat) : String := toString n

/-- Rendering of the modelled decimal `m * 10 ^ e` as a numeral string. -/
def numToString (m e : Int) : String :=
  if 0 ≤ e then
    toString (m * (10 : Int) ^ e.toNat)
  else
    let k := (-e).toNat
    let ds := natDigits m.natAbs
    let sign := if m < 0 then "-" else ""
    if ds.length ≤ k then
      sign ++ "0." ++ String.mk (List.replicate (k - ds.length) '0') ++ ds
    else
      sign ++ ds.take (ds.length - k) ++ "." ++ ds.drop (ds.length - k)

mutual

/-- JavaScript `String(v)` coercion. -/
def jsToString : JsValue → String
  | .null => "null"
  | .bool b => if b then "true" else "false"
  | .num m e => numToString m e
  | .str s => s
  | .arr xs => jsArrayJoin xs
  | .obj _ => "[object Object]"

/-- `Array.prototype.join(",")`: elements coerced with `String`, except
that a `null` element renders as the empty string. -/
def jsArrayJoin : JsList → String
  | .nil => ""
  | .cons JsValue.null .nil => ""
  | .cons hd .nil => jsToString hd
  | .cons JsValue.null tl => "," ++ jsArrayJoin tl
  | .cons hd tl => jsToString hd ++ "," ++ jsArrayJoin tl

end

/-- Hexadecimal digit (lowercase), for JSON string escapes. -/
def hexDigitLower (n : Nat) : Char :=
  if n < 10 then Char.ofNat (48 + n) else Char.ofNat (87 + n)

/-- JSON.stringify escaping of one character inside a string literal. -/
def escapeJsonChar (c : Char) : String :=
  if c = '"' then "\\\""
  else if c = '\\' then "\\\\"
  else if c = '\x08' then "\\b"
  else if c = '\x09' then "\\t"
  else if c = '\x0a' then "\\n"
  else if c = '\x0c' then "\\f"
  else if c = '\x0d' then "\\r"
  else if c.toNat < 32 then
    "\\u00" ++ String.singleton (hexDigitLower (c.toNat / 16)) ++
      String.singleton (hexDigitLower (c.toNat % 16))
  else String.singleton c

/-- JSON string literal for `s`, with JSON.stringify escaping. -/
def jsonQuote (s : String) : String :=
  "\"" ++ String.join (s.data.map escapeJsonChar) ++ "\""

mutual

/-- Compact `JSON.stringify(v)`. -/
def jsonStringify : JsValue → String
  | .null => "null"
  | .bool b => if b then "true" else "false"
  | .num m e => numToString m e
  | .str s => jsonQuote s
  | .arr xs => "[" ++ jsonStringifyElems xs ++ "]"
  | .obj fs => "\x7b" ++ jsonStringifyFields fs ++ "\x7d"

/-- Comma-joined compact serializations of array elements. -/
def jsonStringifyElems : JsList → String
  | .nil => ""
  | .cons hd .nil => jsonStringify hd
  | .cons hd tl => jsonStringify hd ++ "," ++ jsonStringifyElems tl

/-- Comma-joined compact serializations of object members. -/
def jsonStringifyFields : JsFields → String
  | .nil => ""
  | .cons k v .nil => jsonQuote k ++ ":" ++ jsonStringify v
  | .cons k v tl => jsonQuote k ++ ":" ++ jsonStringify v ++ "," ++ jsonStringifyFields tl

end

/-- A run of `n` spaces, for indented serialization. -/
def indentSpaces (n : Nat) : String := String.mk (List.replicate n ' ')

mutual

/-- Indented `JSON.stringify(v, null, 2)`; `ind` is the current
indentation in spaces. -/
def jsonStringifyIndent (ind : Nat) : JsValue → String
  | .null => "null"
  | .bool b => if b then "true" else "false"
  | .num m e => numToString m e
  | .str s => jsonQuote s
  | .arr .nil => "[]"
  | .arr xs =>
      "[\n" ++ jsonStringifyIndentElems (ind + 2) xs ++ "\n" ++ indentSpaces ind ++ "]"
  | .obj .nil => "\x7b\x7d"
  | .obj fs =>
      "\x7b\n" ++ jsonStringifyIndentFields (ind + 2) fs ++ "\n" ++ indentSpaces ind ++ "\x7d"

/-- Indented array elements, one per line. -/
def jsonStringifyIndentElems (ind : Nat) : JsList → String
  | .nil => ""
  | .cons hd .nil => indentSpaces ind ++ jsonStringifyIndent ind hd
  | .cons hd tl =>
      indentSpaces ind ++ jsonStringifyIndent ind hd ++ ",\n" ++
        jsonStringifyIndentElems ind tl

/-- Indented object members, one per line. -/
def jsonStringifyIndentFields (ind : Nat) : JsFields → String
  | .nil => ""
  | .cons k v .nil => indentSpaces ind ++ jsonQuote k ++ ": " ++ jsonStringifyIndent ind v
  | .cons k v tl =>
      indentSpaces ind ++ jsonQuote k ++ ": " ++ jsonStringifyIndent ind v ++ ",\n" ++
        jsonStringifyIndentFields ind tl

end

/-- Top-level `JSON.stringify(v, null, 2)` as used by the tool handler. -/
def jsonStringifyPretty (v : JsValue) : String := jsonStringifyIndent 0 v

/-- JSON whitespace accepted by `JSON.parse` between tokens. -/
def jsonWs (c : Char) : Bool :=
  c = ' ' || c = '\x09' || c = '\x0a' || c = '\x0d'

/-- Skip JSON whitespace. -/
def skipJsonWs (l : List Char) : List Char := l.dropWhile jsonWs

/-- Hexadecimal digit test (both cases), for JSON unicode escapes. -/
def isHexChar (c : Char) : Bool :=
  c.isDigit || ('a' ≤ c && c ≤ 'f') || ('A' ≤ c && c ≤ 'F')

/-- Value of a hexadecimal digit. -/
def hexCharVal (c : Char) : Nat :=
  if c.isDigit then c.toNat - 48
  else if 'a' ≤ c && c ≤ 'f' then c.toNat - 87
  else c.toNat - 55

/-- Decoded character for a single-character JSON escape, if legal. -/
def simpleJsonEscape (c : Char) : Option Char :=
  if c = '"' then some '"'
  else if c = '\\' then some '\\'
  else if c = '/' then some '/'
  else if c = 'b' then some '\x08'
  else if c = 'f' then some '\x0c'
  else if c = 'n' then some '\x0a'
  else if c = 'r' then some '\x0d'
  else if c = 't' then some '\x09'
  else none

/-- Parse the escape tail of a JSON string literal (after a backslash). -/
def parseJsonEscape : List Char → Option (Char × List Char)
  | [] => none
  | c :: l =>
      if c = 'u' then
        match l with
        | a :: b :: d :: e :: rest =>
            if isHexChar a && isHexChar b && isHexChar d && isHexChar e then
              some (Char.ofNat
                (((hexCharVal a * 16 + hexCharVal b) * 16 + hexCharVal d) * 16 + hexCharVal e),
                rest)
            else none
        | _ => none
      else
        match simpleJsonEscape c with
        | some d => some (d, l)
        | none => none

/-- Parse the tail of a JSON string literal (after the opening quote) with
explicit fuel, returning the decoded characters and the rest of the input. -/
def parseJsonStringTail : Nat → List Char → Option (List Char × List Char)
  | 0, _ => none
  | _ + 1, [] => none
  | fuel + 1, c :: l =>
      if c = '"' then some ([], l)
      else if c = '\\' then
        match parseJsonEscape l with
        | none => none
        | some (d, l2) =>
            match parseJsonStringTail fuel l2 with
            | none => none
            | some (cs, rest) => some (d :: cs, rest)
      else if c.toNat < 32 then none
      else
        match parseJsonStringTail fuel l with
        | none => none
        | some (cs, rest) => some (c :: cs, rest)

/-- Parse an unsigned JSON integer digit run, returning its digits. -/
def takeDigits (l : List Char) : List Char × List Char :=
  (l.takeWhile Char.isDigit, l.dropWhile Char.isDigit)

/-- Natural number denoted by a list of decimal digits (most significant
first). -/
def digitsToNat (l : List Char) : Nat :=
  l.foldl (fun acc c => acc * 10 + (c.toNat - 48)) 0

/-- Parse a JSON number per the JSON grammar, as an exact decimal
`m * 10 ^ e`. -/
def parseJsonNumber (l : List Char) : Option ((Int × Int) × List Char) :=
  let (neg, l1) :=
    match l with
    | '-' :: rest => (true, rest)
    | _ => (false, l)
  match l1 with
  | [] => none
  | c :: _ =>
      if ¬ c.isDigit then none
      else
        let (intDigits, l2) := takeDigits l1
        -- JSON forbids leading zeros in multi-digit integer parts
        if intDigits.length > 1 ∧ intDigits.headD '0' = '0' then none
        else
          let (fracDigits, l3) :=
            match l2 with
            | '.' :: rest =>
                let (ds, r) := takeDigits rest
                (ds, r)
            | _ => ([], l2)
          -- a decimal point must be followed by at least one digit
          if (match l2 with | '.' :: _ => fracDigits.isEmpty | _ => false) then none
          else
            let hadDot : Bool := match l2 with | '.' :: _ => true | _ => false
            let l4 := if hadDot then l3 else l2
            let expPart : Option (Int × List Char) :=
              match l4 with
              | c2 :: rest =>
                  if c2 = 'e' ∨ c2 = 'E' then
                    let (esign, r1) :=
                      match rest with
                      | '+' :: r => ((1 : Int), r)
                      | '-' :: r => ((-1 : Int), r)
                      | _ => ((1 : Int), rest)
                    let (eds, r2) := takeDigits r1
                    if eds.isEmpty then none else some (esign * digitsToNat eds, r2)
                  else some (0, l4)
              | [] => some (0, l4)
            match expPart with
            | none => none
            | some (expVal, l5) =>
                let mantissa : Int := digitsToNat (intDigits ++ fracDigits)
                let m : Int := if neg then -mantissa else mantissa
                some ((m, expVal - fracDigits.length), l5)

mutual

/-- Parse one JSON value, with explicit fuel. -/
def parseJsonValue : Nat → List Char → Option (JsValue × List Char)
  | 0, _ => none
  | fuel + 1, l0 =>
      match skipJsonWs l0 with
      | [] => none
      | c :: rest =>
          if c = '"' then
            match parseJsonStringTail (rest.length + 1) rest with
            | none => none
            | some (cs, r) => some (.str (String.mk cs), r)
          else if c = '\x7b' then
            match skipJsonWs rest with
            | '\x7d' :: r => some (.obj .nil, r)
            | l2 =>
                match parseJsonMembers fuel l2 with
                | none => none
                | some (ms, r) =>
                    some (.obj (JsFields.ofList
                      (ms.foldl (fun acc kv => jsAssign acc kv.1 kv.2) [])), r)
          else if c = '[' then
            match skipJsonWs rest with
            | ']' :: r => some (.arr .nil, r)
            | l2 =>
                match parseJsonElems fuel l2 with
                | none => none
                | some (vs, r) => some (.arr (JsList.ofList vs), r)
          else if c = 't' then
            match c :: rest with
            | 't' :: 'r' :: 'u' :: 'e' :: r => some (.bool true, r)
            | _ => none
          else if c = 'f' then
            match c :: rest with
            | 'f' :: 'a' :: 'l' :: 's' :: 'e' :: r => some (.bool false, r)
            | _ => none
          else if c = 'n' then
            match c :: rest with
            | 'n' :: 'u' :: 'l' :: 'l' :: r => some (.null, r)
            | _ => none
          else
            match parseJsonNumber (c :: rest) with
            | none => none
            | some ((m, e), r) => some (.num m e, r)

/-- Parse one or more comma-separated JSON array elements followed by the
closing bracket. -/
def parseJsonElems : Nat → List Char → Option (List JsValue × List Char)
  | 0, _ => none
  | fuel + 1, l =>
      match parseJsonValue fuel l with
      | none => none
      | some (v, r) =>
          match skipJsonWs r with
          | ',' :: r2 =>
              match parseJsonElems fuel r2 with
              | none => none
              | some (vs, r3) => some (v :: vs, r3)
          | ']' :: r2 => some ([v], r2)
          | _ => none

/-- Parse one or more comma-separated JSON object members followed by the
closing brace. -/
def parseJsonMembers : Nat → List Char → Option (List (String × JsValue) × List Char)
  | 0, _ => none
  | fuel + 1, l =>
      match skipJsonWs l with
      | '"' :: r =>
          match parseJsonStringTail (r.length + 1) r with
          | none => none
          | some (k, r2) =>
              match skipJsonWs r2 with
              | ':' :: r3 =>
                  match parseJsonValue fuel r3 with
                  | none => none
                  | some (v, r4) =>
                      match skipJsonWs r4 with
                      | ',' :: r5 =>
                          match parseJsonMembers fuel r5 with
                          | none => none
                          | some (ms, r6) => some ((String.mk k, v) :: ms, r6)
                      | '\x7d' :: r5 => some ([(String.mk k, v)], r5)
                      | _ => none
              | _ => none
      | _ => none

end

/-- Model of `JSON.parse(s)`: `none` models a thrown `SyntaxError`.  The
fuel bound exceeds any possible recursion depth for the input. -/
def jsonParse (s : String) : Option JsValue :=
  match parseJsonValue (2 * s.length + 4) s.data with
  | none => none
  | some (v, rest) => if skipJsonWs rest = [] then some v else none

/-- Uppercase hexadecimal digit, for percent-encoding. -/
def hexDigitUpper (n : Nat) : Char :=
  if n < 10 then Char.ofNat (48 + n) else Char.ofNat (55 + n)

/-- UTF-8 bytes of one scalar value, as used by `encodeURIComponent`. -/
def utf8Bytes (c : Char) : List Nat :=
  let n := c.toNat
  if n < 0x80 then [n]
  else if n < 0x800 then [0xC0 + n / 0x40, 0x80 + n % 0x40]
  else if n < 0x10000 then
    [0xE0 + n / 0x1000, 0x80 + (n / 0x40) % 0x40, 0x80 + n % 0x40]
  else
    [0xF0 + n / 0x40000, 0x80 + (n / 0x1000) % 0x40, 0x80 + (n / 0x40) % 0x40, 0x80 + n % 0x40]

/-- Characters left unescaped by `encodeURIComponent`:
letters, digits, and `- _ . ! ~ * ( )` plus the single-quote character. -/
def uriUnreservedChar (c : Char) : Bool :=
  c.isAlphanum || c = '-' || c = '_' || c = '.' || c = '!' || c = '~' ||
    c = '*' || c = Char.ofNat 39 || c = '(' || c = ')'

/-- Model of JavaScript `encodeURIComponent`. -/
def encodeURIComponent (s : String) : String :=
  String.join (s.data.map (fun c =>
    if uriUnreservedChar c then String.singleton c
    else
      String.join ((utf8Bytes c).map (fun b =>
        "%" ++ String.singleton (hexDigitUpper (b / 16)) ++
          String.singleton (hexDigitUpper (b % 16))))))

/-- Split off the characters before the first closing brace: on success,
the input is `inner ++ closing-brace ++ rest`. -/
def splitAtCloseBrace : List Char → Option (List Char × List Char)
  | [] => none
  | c :: rest =>
      if c = '\x7d' then some ([], rest)
      else
        match splitAtCloseBrace rest with
        | none => none
        | some (a, b) => some (c :: a, b)

theorem splitAtCloseBrace_length {l a b : List Char}
    (h : splitAtCloseBrace l = some (a, b)) : b.length < l.length := by
  induction l generalizing a b with
  | nil => simp [splitAtCloseBrace] at h
  | cons c rest ih =>
      simp only [splitAtCloseBrace] at h
      split at h
      · injection h with h1
        cases h1
        simp
      · match h2 : splitAtCloseBrace rest with
        | none => rw [h2] at h; cases h
        | some (a2, b2) =>
            rw [h2] at h
            injection h with h1
            have := ih h2
            cases h1
            simp
            omega

/-- The replacement scan of `path.replace(/\x7b([^\x7d]+)\x7d/g, f)` with
structural fuel (the wrapper passes the input length, which suffices):
each token `\x7b name \x7d` with nonempty `name` is replaced by `f name`,
everything else is copied. -/
def replaceBraceTokensF (f : String → String) : Nat → List Char → List Char
  | 0, l => l
  | _ + 1, [] => []
  | fuel + 1, c :: rest =>
      if c = '\x7b' then
        match splitAtCloseBrace rest with
        | some (inner, rest2) =>
            if inner.isEmpty then c :: replaceBraceTokensF f fuel rest
            else (f (String.mk inner)).data ++ replaceBraceTokensF f fuel rest2
        | none => c :: replaceBraceTokensF f fuel rest
      else c :: replaceBraceTokensF f fuel rest

/-- The replacement scan of `path.replace(/\x7b([^\x7d]+)\x7d/g, f)`. -/
def replaceBraceTokens (f : String → String) (l : List Char) : List Char :=
  replaceBraceTokensF f l.length l

/-- The string substituted for a path token named `name`:
`encodeURIComponent` of the looked-up value, falsy values being replaced
by the empty string first, per `HttpClient.replacePathParams`. -/
def pathTokenValue (args : List (String × JsValue)) (name : String) : String :=
  encodeURIComponent
    (match jsLookup args name with
     | some v => if jsTruthy v then jsToString v else ""
     | none => "")

/-- Model of `HttpClient.replacePathParams` (second variant). -/
def replacePathParams (path : String) (args : List (String × JsValue)) : String :=
  String.mk (replaceBraceTokens (pathTokenValue args) path.data)

/-- Modelled from the spec for comparison: path substitution as the spec
words it, with each token replaced by the URL-encoded argument value and a
missing argument substituting the empty string. -/
def specPathSubstitution (path : String) (args : List (String × JsValue)) : String :=
  String.mk (replaceBraceTokens
    (fun name =>
      match jsLookup args name with
      | some v => encodeURIComponent (jsToString v)
      | none => "")
    path.data)

/-- JavaScript word character (regex `\w`). -/
def jsWordChar (c : Char) : Bool :=
  c.isAlphanum || c = '_'

def jsSpaceChar (c : Char) : Bool :=
  c = ' ' || c = '\x09' || c = '\x0a' || c = '\x0b' || c = '\x0c' || c = '\x0d' ||
    c = '\u00A0' || c = '\u1680' ||
    ('\u2000' <= c && c <= '\u200A') ||
    c = '\u2028' || c = '\u2029' || c = '\u202F' || c = '\u205F' ||
    c = '\u3000' || c = '\uFEFF'

/-- Model of `path.replace(/[^\w\s]/g, '_')` in
`OpenAPIToMCPConverter.parseOperations`. -/
def sanitizePathForId (p : String) : String :=
  String.mk (p.data.map (fun c => if jsWordChar c || jsSpaceChar c then c else '_'))

/-- ASCII uppercasing, the behavior of `toUpperCase` on the seven
recognized HTTP method names. -/
def asciiUpper (s : String) : String :=
  String.mk (s.data.map (fun c =>
    if 'a' ≤ c && c ≤ 'z' then Char.ofNat (c.toNat - 32) else c))

/-- The synthesized operation id for an operation without an explicit
`operationId`. -/
def synthesizeOperationId (method path : String) : String :=
  asciiUpper method ++ "_" ++ sanitizePathForId path

/-- Modelled from the spec for comparison: the synthesized id as the spec
words it, with every non-word character of the path replaced by an
underscore. -/
def specSynthesizedId (method path : String) : String :=
  asciiUpper method ++ "_" ++
    String.mk (path.data.map (fun c => if jsWordChar c then c else '_'))

/-- Model of an OpenAPI schema fragment as accessed by the converter and
the HTTP client: `type`, `enum`, `format`, `items`, `properties`,
`required`, `$ref`.  Absent JSON properties are `none`. -/
inductive SchemaObject where
  | mk (typ : Option String) (enumVals : Option (List String))
       (format : Option String) (items : Option SchemaObject)
       (properties : Option (List (String × SchemaObject)))
       (required : Option (List String)) (ref : Option String) : SchemaObject

def SchemaObject.typ : SchemaObject → Option String
  | .mk t _ _ _ _ _ _ => t

def SchemaObject.enumVals : SchemaObject → Option (List String)
  | .mk _ e _ _ _ _ _ => e

def SchemaObject.format : SchemaObject → Option String
  | .mk _ _ f _ _ _ _ => f

def SchemaObject.items : SchemaObject → Option SchemaObject
  | .mk _ _ _ i _ _ _ => i

def SchemaObject.properties : SchemaObject → Option (List (String × SchemaObject))
  | .mk _ _ _ _ p _ _ => p

def SchemaObject.requiredNames : SchemaObject → Option (List String)
  | .mk _ _ _ _ _ r _ => r

def SchemaObject.ref : SchemaObject → Option String
  | .mk _ _ _ _ _ _ r => r

/-- Truthiness of the `$ref` property, as tested by the in-operator
guard combined with the truthiness of the reference string. -/
def SchemaObject.refTruthy (s : SchemaObject) : Bool :=
  match s.ref with
  | some r => r ≠ ""
  | none => false

/-- Model of an OpenAPI media-type object (one entry of a `content` map). -/
structure MediaTypeObject where
  schema : Option SchemaObject

/-- Model of an OpenAPI request body object. -/
structure RequestBodyObject where
  content : Option (List (String × MediaTypeObject))
  required : Bool

/-- Model of an OpenAPI parameter object (`in` is called `location`). -/
structure ParameterObject where
  name : String
  location : String
  required : Bool
  schema : Option SchemaObject
  description : Option String

/-- Model of an OpenAPI operation object, with the properties the engine
reads. -/
structure OperationObject where
  operationId : Option String
  summary : Option String
  description : Option String
  parameters : Option (List ParameterObject)
  requestBody : Option RequestBodyObject

/-- Model of an OpenAPI security scheme. -/
inductive SecuritySchemeObject where
  | apiKey (name : String) (location : String) : SecuritySchemeObject
  | http (scheme : String) : SecuritySchemeObject
  | oauth2 : SecuritySchemeObject
  | openIdConnect : SecuritySchemeObject

/-- Model of the parsed OpenAPI document.  The `openapi` and `info`
properties are raw JSON values because the validator only tests their
truthiness; `paths` is the path table the extractor walks. -/
structure OpenApiDocument where
  openapi : Option JsValue
  info : Option JsValue
  paths : Option (List (String × List (String × OperationObject)))
  securitySchemes : Option (List (String × SecuritySchemeObject))

/-- Truthiness of an optional JS value (absence is falsy). -/
def truthyOpt : Option JsValue → Bool
  | none => false
  | some v => jsTruthy v

/-- Model of `validateOpenAPISpec` in `src/openapi/loader.ts`: it throws
(modelled by `Except.error`) when `openapi`, `info` or `paths` is missing,
and otherwise returns `true`. -/
def validateOpenAPISpec (doc : OpenApiDocument) : Except String Bool :=
  if ¬ truthyOpt doc.openapi then .error "Missing \"openapi\" field in spec"
  else if ¬ truthyOpt doc.info then .error "Missing \"info\" field in spec"
  else if doc.paths.isNone then .error "Missing \"paths\" field in spec"
  else .ok true

/-- The seven HTTP verbs recognized by `parseOperations`. -/
def httpMethodNames : List String :=
  ["get", "post", "put", "delete", "patch", "options", "head"]

/-- One extracted operation record, as accumulated by `parseOperations`. -/
structure OperationRecord where
  path : String
  method : String
  operation : OperationObject
  operationId : String

/-- The record `parseOperations` pushes for one `(path, method)` pair:
`operationObj.operationId || METHOD_sanitizedPath`. -/
def mkOperationRecord (path method : String) (op : OperationObject) : OperationRecord :=
  { path := path
    method := method
    operation := op
    operationId :=
      match op.operationId with
      | some s => if s = "" then synthesizeOperationId method path else s
      | none => synthesizeOperationId method path }

/-- Model of `OpenAPIToMCPConverter.parseOperations`: walk the path table,
keep the entries whose key is one of the seven verbs, and build a record
for each. -/
def parseOperations (doc : OpenApiDocument) : List OperationRecord :=
  match doc.paths with
  | none => []
  | some table =>
      table.flatMap (fun pathEntry =>
        (pathEntry.2.filter (fun methodEntry => httpMethodNames.contains methodEntry.1)).map
          (fun methodEntry => mkOperationRecord pathEntry.1 methodEntry.1 methodEntry.2))

/-- Converter state after construction. -/
structure ConverterState where
  spec : OpenApiDocument
  operations : List OperationRecord

/-- Model of the `OpenAPIToMCPConverter` constructor: validate first
(propagating the validation error), then parse the operations. -/
def mkConverter (doc : OpenApiDocument) : Except String ConverterState :=
  match validateOpenAPISpec doc with
  | .error e => .error e
  | .ok _ => .ok { spec := doc, operations := parseOperations doc }

/-- Consume exactly `n` decimal digits. -/
def consumeDigits : Nat → List Char → Option (List Char)
  | 0, l => some l
  | n + 1, c :: l => if c.isDigit then consumeDigits n l else none
  | _ + 1, [] => none

/-- Consume one expected character. -/
def consumeExact (c : Char) : List Char → Option (List Char)
  | d :: l => if d = c then some l else none
  | [] => none

/-- The optional fractional-seconds group `(\.\d+)?` of the zod datetime
pattern. -/
def consumeOptionalFraction : List Char → Option (List Char)
  | '.' :: rest =>
      let ds := rest.takeWhile Char.isDigit
      if ds.isEmpty then none else some (rest.dropWhile Char.isDigit)
  | l => some l

/-- Model of the zod 3.22 default `z.string().datetime()` test, the regex
`^\d\x7b4\x7d-\d\x7b2\x7d-\d\x7b2\x7dT\d\x7b2\x7d:\d\x7b2\x7d:\d\x7b2\x7d(\.\d+)?Z$`. -/
def isZodDatetimeString (s : String) : Bool :=
  let step : Option (List Char) := do
    let l0 ← consumeDigits 4 s.data
    let l1 ← consumeExact '-' l0
    let l2 ← consumeDigits 2 l1
    let l3 ← consumeExact '-' l2
    let l4 ← consumeDigits 2 l3
    let l5 ← consumeExact 'T' l4
    let l6 ← consumeDigits 2 l5
    let l7 ← consumeExact ':' l6
    let l8 ← consumeDigits 2 l7
    let l9 ← consumeExact ':' l8
    let l10 ← consumeDigits 2 l9
    let l11 ← consumeOptionalFraction l10
    let l12 ← consumeExact 'Z' l11
    some l12
  match step with
  | some [] => true
  | _ => false

/-- Model of the zod validation rules the converter builds. -/
inductive ZodRule where
  | stringRule : ZodRule
  | enumRule (vs : List String) : ZodRule
  | datetimeRule : ZodRule
  | numberRule : ZodRule
  | intRule : ZodRule
  | booleanRule : ZodRule
  | arrayRule (t : ZodRule) : ZodRule
  | anyRule : ZodRule
  | emptyObjectRule : ZodRule
  | passthroughObjectRule : ZodRule
  | optionalRule (t : ZodRule) : ZodRule

/-- Whether the modelled decimal `m * 10 ^ e` is an integer. -/
def decimalIsInt (m e : Int) : Bool :=
  if 0 ≤ e then true else m % (10 : Int) ^ (-e).toNat = 0

/-- Acceptance of a present value by a modelled zod rule. -/
def zodAccepts : ZodRule → JsValue → Bool
  | .stringRule, .str _ => true
  | .stringRule, _ => false
  | .enumRule vs, .str s => vs.contains s
  | .enumRule _, _ => false
  | .datetimeRule, .str s => isZodDatetimeString s
  | .datetimeRule, _ => false
  | .numberRule, .num _ _ => true
  | .numberRule, _ => false
  | .intRule, .num m e => decimalIsInt m e
  | .intRule, _ => false
  | .booleanRule, .bool _ => true
  | .booleanRule, _ => false
  | .arrayRule t, .arr xs => (JsList.toList xs).all (fun v => zodAccepts t v)
  | .arrayRule _, _ => false
  | .anyRule, _ => true
  | .emptyObjectRule, .obj _ => true
  | .emptyObjectRule, _ => false
  | .passthroughObjectRule, .obj _ => true
  | .passthroughObjectRule, _ => false
  | .optionalRule t, v => zodAccepts t v

/-- Acceptance of an optional field: `none` models an absent
(`undefined`) argument, accepted only by an optional rule. -/
def zodAcceptsOpt (r : ZodRule) (v : Option JsValue) : Bool :=
  match v with
  | some v0 => zodAccepts r v0
  | none =>
      match r with
      | .optionalRule _ => true
      | .anyRule => true
      | _ => false

/-- Model of `OpenAPIToMCPConverter.convertParameterToZodSchema`.  `none`
models the TypeError thrown when `param.schema` (or `schema.items` in the
array case) is absent. -/
def convertParameterToZodSchema (p : ParameterObject) : Option (String × ZodRule) :=
  match p.schema with
  | none => none
  | some sch =>
      let base : Option ZodRule :=
        match sch.typ with
        | some t =>
            if t = "string" then
              let afterEnum : ZodRule :=
                match sch.enumVals with
                | some vs => .enumRule vs
                | none => .stringRule
              some (if sch.format = some "date-time" then .datetimeRule else afterEnum)
            else if t = "number" then some .numberRule
            else if t = "integer" then some .intRule
            else if t = "boolean" then some .booleanRule
            else if t = "array" then
              match sch.items with
              | none => none
              | some it =>
                  some (match it.typ with
                    | some it2 =>
                        if it2 = "string" then .arrayRule .stringRule
                        else if it2 = "number" then .arrayRule .numberRule
                        else if it2 = "integer" then .arrayRule .intRule
                        else if it2 = "boolean" then .arrayRule .booleanRule
                        else .arrayRule .anyRule
                    | none => .arrayRule .anyRule)
            else if t = "object" then some .emptyObjectRule
            else some .anyRule
        | none => some .anyRule
      match base with
      | none => none
      | some z => some (p.name, if p.required then z else .optionalRule z)

/-- The credential-placement fields of `HttpClient` (second variant):
`apiKey`, `apiKeyParamName`, `apiKeyLocation`. -/
structure HttpClientAuth where
  apiKey : Option String
  apiKeyParamName : Option String
  apiKeyLocation : Option String

/-- Model of `HttpClient.extractApiKeyInfo`: scan the declared security
schemes; an `apiKey` scheme records its name and placement and stops the
scan; an HTTP bearer scheme records `(Authorization, header)` and keeps
scanning so that a later `apiKey` scheme can take precedence. -/
def scanSecuritySchemes (acc : Option String × Option String) :
    List (String × SecuritySchemeObject) → Option String × Option String
  | [] => acc
  | (_, s) :: rest =>
      match s with
      | .apiKey n l => (some n, some l)
      | .http scheme =>
          if scheme = "bearer" then
            scanSecuritySchemes (some "Authorization", some "header") rest
          else scanSecuritySchemes acc rest
      | _ => scanSecuritySchemes acc rest

/-- The auth fields of a client constructed from `options.apiKey` and a
document, per the `HttpClient` constructor and `extractApiKeyInfo`. -/
def mkHttpClientAuth (optKey : Option String) (doc : OpenApiDocument) : HttpClientAuth :=
  let resolved :=
    match doc.securitySchemes with
    | none => (none, none)
    | some schemes => scanSecuritySchemes (none, none) schemes
  { apiKey := optKey, apiKeyParamName := resolved.1, apiKeyLocation := resolved.2 }

/-- Model of `HttpClient.extractQueryParams` (second variant): declared
query parameters present in the arguments are collected, then the
configured API key is written into the map when its placement is `query`. -/
def extractQueryParams (auth : HttpClientAuth) (op : OperationObject)
    (args : List (String × JsValue)) : List (String × JsValue) :=
  let base : List (String × JsValue) :=
    match op.parameters with
    | none => []
    | some ps =>
        (ps.filter (fun p => p.location = "query")).foldl
          (fun acc p =>
            match jsLookup args p.name with
            | some v => jsAssign acc p.name v
            | none => acc)
          []
  match auth.apiKey, auth.apiKeyParamName with
  | some key, some pname =>
      if key ≠ "" ∧ pname ≠ "" ∧ auth.apiKeyLocation = some "query" then
        jsAssign base pname (.str key)
      else base
  | _, _ => base

/-- `String.prototype.startsWith`, on the character lists. -/
def strStartsWith (s p : String) : Bool := p.data.isPrefixOf s.data

/-- `String.prototype.endsWith`, on the character lists. -/
def strEndsWith (s p : String) : Bool := p.data.reverse.isPrefixOf s.data.reverse

/-- Helper for `split(",")`: accumulate the current piece (reversed). -/
def splitCommasAux : List Char → List Char → List String
  | [], acc => [String.mk acc.reverse]
  | c :: rest, acc =>
      if c = ',' then String.mk acc.reverse :: splitCommasAux rest []
      else splitCommasAux rest (c :: acc)

/-- JavaScript `split(",")`: split at every comma; the empty string
yields one empty piece. -/
def jsSplitCommas (s : String) : List String := splitCommasAux s.data []

/-- JavaScript `String.prototype.trim`: strip the JS whitespace set from
both ends. -/
def jsTrim (s : String) : String :=
  String.mk (((s.data.dropWhile jsSpaceChar).reverse.dropWhile jsSpaceChar).reverse)

/-- The string-to-array recovery applied to an array-typed body property
whose supplied value is a string: a JSON-array-looking string is parsed
(falling back to a single-element array when the parse throws); any other
string is split on commas and trimmed. -/
def recoverArrayString (s : String) : JsValue :=
  if strStartsWith s "[" && strEndsWith s "]" then
    match jsonParse s with
    | some j => j
    | none => .arr (JsList.ofList [.str s])
  else
    .arr (JsList.ofList ((jsSplitCommas s).map (fun piece => .str (jsTrim piece))))

/-- One step of the properties-branch body assembly: copy the argument
for a declared property, applying the string-to-array recovery to
array-typed properties supplied as strings. -/
def bodyFromPropsStep (args : List (String × JsValue))
    (acc : List (String × JsValue)) (pp : String × SchemaObject) :
    List (String × JsValue) :=
  match jsLookup args pp.1 with
  | none => acc
  | some v =>
      match v with
      | .str s =>
          if pp.2.typ = some "array" then jsAssign acc pp.1 (recoverArrayString s)
          else jsAssign acc pp.1 (.str s)
      | other => jsAssign acc pp.1 other

/-- Body assembly from declared schema properties
(`extractRequestBody`, properties branch). -/
def bodyFromProps (props : List (String × SchemaObject))
    (args : List (String × JsValue)) : List (String × JsValue) :=
  props.foldl (bodyFromPropsStep args) []

/-- Body assembly for a `$ref` or property-less object schema
(`extractRequestBody`, pass-all branch): all arguments except empty
strings are copied, JSON-array-looking strings being parsed when possible. -/
def bodyPassAll (args : List (String × JsValue)) : List (String × JsValue) :=
  args.foldl
    (fun acc kv =>
      match kv.2 with
      | .str s =>
          if s = "" then acc
          else if strStartsWith s "[" && strEndsWith s "]" then
            match jsonParse s with
            | some j => jsAssign acc kv.1 j
            | none => jsAssign acc kv.1 (.str s)
          else jsAssign acc kv.1 (.str s)
      | v => jsAssign acc kv.1 v)
    []

/-- Model of `HttpClient.extractRequestBody` (second variant). -/
def extractRequestBody (op : OperationObject)
    (args : List (String × JsValue)) : Option JsValue :=
  match op.requestBody with
  | none => none
  | some rb =>
      match rb.content with
      | none => none
      | some content =>
          match jsLookup content "application/json" with
          | none => none
          | some mt =>
              match mt.schema with
              | none => none
              | some sch =>
                  if sch.typ = some "array" then
                    match jsLookup args "body" with
                    | some (.arr xs) => some (.arr xs)
                    | _ => some (.arr .nil)
                  else if sch.typ = some "object" || sch.refTruthy then
                    if sch.refTruthy || sch.properties.isNone then
                      some (.obj (JsFields.ofList (bodyPassAll args)))
                    else
                      some (.obj (JsFields.ofList
                        (bodyFromProps (sch.properties.getD []) args)))
                  else none

/-- The outcome of the underlying HTTP call, as distinguished by the
`catch` block of `HttpClient.executeOperation` (second variant). -/
inductive HttpOutcome where
  | success (data : JsValue) : HttpOutcome
  | errorResponse (status : Nat) (data : JsValue) : HttpOutcome
  | errorNoResponse : HttpOutcome
  | errorSetup (msg : String) : HttpOutcome
  | errorThrown (msg : String) : HttpOutcome

/-- Model of the result of `HttpClient.executeOperation` (second variant):
the decoded response body on success, a thrown error message otherwise
(non-2xx responses embed the status code and the stringified body). -/
def executeOperationResult : HttpOutcome → Except String JsValue
  | .success d => .ok d
  | .errorResponse status d =>
      .error ("API request failed with status " ++ toString status ++ ": " ++ jsonStringify d)
  | .errorNoResponse => .error "API request failed: No response received from server"
  | .errorSetup m => .error ("API request failed: " ++ m)
  | .errorThrown m => .error m

/-- The `content` item of an MCP tool result. -/
structure ToolContent where
  type : String
  text : String

/-- Model of the invocation handler registered by
`MCPServerGenerator.generateServer`: successes are formatted as text
(stringified when the body is not a string), every caught error becomes
an `Error: `-prefixed text result. -/
def toolInvocationResult (o : HttpOutcome) : ToolContent :=
  match executeOperationResult o with
  | .ok d =>
      { type := "text"
        text :=
          match d with
          | .str s => s
          | other => jsonStringifyPretty other }
  | .error m => { type := "text", text := "Error: " ++ m }

theorem jsLookup_jsAssign_self {α : Type} (m : List (String × α)) (k : String) (v : α) :
    jsLookup (jsAssign m k v) k = some v := by
  induction m with
  | nil => simp [jsAssign, jsLookup]
  | cons kv rest ih =>
      obtain ⟨k0, v0⟩ := kv
      by_cases h : k0 = k
      · subst h
        simp [jsAssign, jsLookup]
      · simp [jsAssign, jsLookup, h, ih]

theorem jsLookup_jsAssign_ne {α : Type} (m : List (String × α)) (k n : String) (v : α)
    (h : k ≠ n) : jsLookup (jsAssign m k v) n = jsLookup m n := by
  induction m with
  | nil => simp [jsAssign, jsLookup, h]
  | cons kv rest ih =>
      obtain ⟨k0, v0⟩ := kv
      by_cases h0 : k0 = k
      · subst h0
        simp [jsAssign, jsLookup, h]
      · simp [jsAssign, jsLookup, h0, ih]

theorem jsLookup_mem {α : Type} {m : List (String × α)} {n : String} {v : α}
    (h : jsLookup m n = some v) : (n, v) ∈ m := by
  induction m with
  | nil => simp [jsLookup] at h
  | cons kv rest ih =>
      obtain ⟨k0, v0⟩ := kv
      by_cases h0 : k0 = n
      · subst h0
        simp [jsLookup] at h
        subst h
        exact List.mem_cons_self _ _
      · simp [jsLookup, h0] at h
        exact List.mem_cons_of_mem _ (ih h)

theorem jsLookup_eq_none_iff {α : Type} (m : List (String × α)) (n : String) :
    jsLookup m n = none ↔ n ∉ m.map Prod.fst := by
  induction m with
  | nil => simp [jsLookup]
  | cons kv rest ih =>
      obtain ⟨k0, v0⟩ := kv
      by_cases h0 : k0 = n
      · subst h0
        simp [jsLookup]
      · simp [jsLookup, h0, ih, Ne.symm h0]

theorem jsAssign_eq_append {α : Type} (m : List (String × α)) (k : String) (v : α)
    (h : jsLookup m k = none) : jsAssign m k v = m ++ [(k, v)] := by
  induction m with
  | nil => simp [jsAssign]
  | cons kv rest ih =>
      obtain ⟨k0, v0⟩ := kv
      by_cases h0 : k0 = k
      · subst h0
        simp [jsLookup] at h
      · simp [jsLookup, h0] at h
        simp [jsAssign, h0, ih h]

theorem bodyFromPropsStep_some (args acc : List (String × JsValue))
    (k : String) (psch : SchemaObject) (v : JsValue)
    (h : jsLookup args k = some v) :
    ∃ w, bodyFromPropsStep args acc (k, psch) = jsAssign acc k w := by
  unfold bodyFromPropsStep
  simp only [h]
  cases v with
  | str s =>
      by_cases ht : psch.typ = some "array"
      · exact ⟨recoverArrayString s, by simp [ht]⟩
      · exact ⟨.str s, by simp [ht]⟩
  | null => exact ⟨_, rfl⟩
  | bool b => exact ⟨_, rfl⟩
  | num m e => exact ⟨_, rfl⟩
  | arr xs => exact ⟨_, rfl⟩
  | obj fs => exact ⟨_, rfl⟩

theorem bodyFromPropsStep_lookup_ne (args acc : List (String × JsValue))
    (pp : String × SchemaObject) (p : String) (h : pp.1 ≠ p) :
    jsLookup (bodyFromPropsStep args acc pp) p = jsLookup acc p := by
  match hl : jsLookup args pp.1 with
  | none => unfold bodyFromPropsStep; simp only [hl]
  | some v =>
      obtain ⟨w, hw⟩ := bodyFromPropsStep_some args acc pp.1 pp.2 v hl
      have hpp : pp = (pp.1, pp.2) := rfl
      rw [hpp, hw]
      exact jsLookup_jsAssign_ne _ _ _ _ h

theorem bodyFromProps_fold_preserve (args : List (String × JsValue)) (p : String) :
    ∀ (props : List (String × SchemaObject)) (acc : List (String × JsValue)),
    p ∉ props.map Prod.fst →
    jsLookup (props.foldl (bodyFromPropsStep args) acc) p = jsLookup acc p := by
  intro props
  induction props with
  | nil => intro acc _; rfl
  | cons pp rest ih =>
      intro acc h
      simp only [List.map_cons, List.mem_cons] at h
      push_neg at h
      rw [List.foldl_cons, ih _ h.2, bodyFromPropsStep_lookup_ne _ _ _ _ (fun he => h.1 he.symm)]

theorem bodyFromProps_fold_lookup (args : List (String × JsValue)) (p : String)
    (psch : SchemaObject) :
    ∀ (props : List (String × SchemaObject)) (acc : List (String × JsValue)),
    (props.map Prod.fst).Nodup → (p, psch) ∈ props →
    jsLookup (props.foldl (bodyFromPropsStep args) acc) p =
      match jsLookup args p with
      | none => jsLookup acc p
      | some (.str s) =>
          some (if psch.typ = some "array" then recoverArrayString s else .str s)
      | some v => some v := by
  intro props
  induction props with
  | nil => intro acc _ hmem; simp at hmem
  | cons pp rest ih =>
      intro acc hnd hmem
      simp only [List.map_cons, List.nodup_cons] at hnd
      rcases List.mem_cons.1 hmem with heq | htail
      · -- the head is the property in question
        have hk : pp.1 = p := by rw [← heq]
        have hps : pp.2 = psch := by rw [← heq]
        rw [List.foldl_cons]
        rw [bodyFromProps_fold_preserve args p rest _ (by rw [hk] at hnd; exact hnd.1)]
        unfold bodyFromPropsStep
        rw [hk, hps]
        match hl : jsLookup args p with
        | none => simp only [hl]
        | some (.str s) =>
            simp only [hl]
            by_cases ht : psch.typ = some "array"
            · simp [ht, jsLookup_jsAssign_self]
            · simp [ht, jsLookup_jsAssign_self]
        | some .null => simp only [hl, jsLookup_jsAssign_self]
        | some (.bool b) => simp only [hl, jsLookup_jsAssign_self]
        | some (.num m e) => simp only [hl, jsLookup_jsAssign_self]
        | some (.arr xs) => simp only [hl, jsLookup_jsAssign_self]
        | some (.obj fs) => simp only [hl, jsLookup_jsAssign_self]
      · -- the property sits in the tail
        have hk : pp.1 ≠ p := by
          intro he
          apply hnd.1
          rw [he]
          exact List.mem_map_of_mem Prod.fst htail
        rw [List.foldl_cons]
        have := ih (bodyFromPropsStep args acc pp) hnd.2 htail
        rw [this]
        match hl : jsLookup args p with
        | none => simp only [bodyFromPropsStep_lookup_ne args acc pp p hk]
        | some (.str s) => simp only []
        | some .null => simp only []
        | some (.bool b) => simp only []
        | some (.num m e) => simp only []
        | some (.arr xs) => simp only []
        | some (.obj fs) => simp only []

theorem bodyFromProps_fold_keys (args : List (String × JsValue)) :
    ∀ (props : List (String × SchemaObject)) (acc : List (String × JsValue)),
    (props.map Prod.fst).Nodup →
    (∀ n, n ∈ props.map Prod.fst → jsLookup acc n = none) →
    (props.foldl (bodyFromPropsStep args) acc).map Prod.fst =
      acc.map Prod.fst ++
        (props.map Prod.fst).filter (fun n => (jsLookup args n).isSome) := by
  intro props
  induction props with
  | nil => intro acc _ _; simp
  | cons pp rest ih =>
      intro acc hnd hacc
      simp only [List.map_cons, List.nodup_cons] at hnd
      rw [List.foldl_cons]
      match hl : jsLookup args pp.1 with
      | none =>
          have hstep : bodyFromPropsStep args acc pp = acc := by
            unfold bodyFromPropsStep
            simp only [hl]
          rw [hstep]
          rw [ih acc hnd.2 (fun n hn => hacc n (by simp [hn]))]
          simp [List.filter_cons, hl]
      | some v =>
          obtain ⟨w, hw⟩ := bodyFromPropsStep_some args acc pp.1 pp.2 v hl
          have hpp : pp = (pp.1, pp.2) := rfl
          rw [hpp, hw]
          have hnone : jsLookup acc pp.1 = none := hacc pp.1 (by simp)
          rw [jsAssign_eq_append acc pp.1 w hnone]
          have hacc2 : ∀ n, n ∈ rest.map Prod.fst →
              jsLookup (acc ++ [(pp.1, w)]) n = none := by
            intro n hn
            rw [jsLookup_eq_none_iff]
            simp only [List.map_append, List.mem_append]
            push_neg
            constructor
            · rw [← jsLookup_eq_none_iff]
              exact hacc n (by simp [hn])
            · simp only [List.map_cons, List.map_nil, List.mem_singleton]
              intro he
              exact hnd.1 (he ▸ hn)
          rw [ih (acc ++ [(pp.1, w)]) hnd.2 hacc2]
          simp [List.filter_cons, hl]

/-- An operation object carrying no explicit `operationId`. -/
def emptyOperationObject : OperationObject :=
  { operationId := none, summary := none, description := none,
    parameters := none, requestBody := none }

/-- A valid document whose single path contains a whitespace character. -/
def docWithSpacePath : OpenApiDocument :=
  { openapi := some (.str "3.0.0")
    info := some (.obj (JsFields.ofList [("title", .str "t")]))
    paths := some [("/a b", [("get", emptyOperationObject)])]
    securitySchemes := none }

/-- C1 counterexample: on the path `/a b` (no explicit operationId), the
code synthesizes `GET__a b` — the space, a non-word character, is kept —
while the claimed formula (every non-word character replaced by an
underscore) demands `GET__a_b`. -/
theorem c1_operation_id_counterexample :
    (parseOperations docWithSpacePath).map (fun r => r.operationId) = ["GET__a b"]
    ∧ specSynthesizedId "get" "/a b" = "GET__a_b"
    ∧ ("GET__a b" : String) ≠ "GET__a_b" := by
  refine ⟨by rfl, by rfl, by decide⟩

/-- C1 (amended): for every operation without a truthy explicit
`operationId`, the synthesized tool name is the upper-cased method, an
underscore, and the path with every character that is neither a word
character nor a whitespace character replaced by an underscore; the
sanitization is deterministic and idempotent. -/
theorem c1_operation_id_synthesis (path method : String) (op : OperationObject)
    (h : op.operationId = none ∨ op.operationId = some "") :
    (mkOperationRecord path method op).operationId =
      asciiUpper method ++ "_" ++ sanitizePathForId path
    ∧ sanitizePathForId (sanitizePathForId path) = sanitizePathForId path := by
  constructor
  · unfold mkOperationRecord synthesizeOperationId
    rcases h with h | h <;> simp [h]
  · unfold sanitizePathForId
    rw [show (String.mk (path.data.map (fun c =>
        if jsWordChar c || jsSpaceChar c then c else '_'))).data =
        path.data.map (fun c => if jsWordChar c || jsSpaceChar c then c else '_') from rfl]
    rw [List.map_map]
    congr 1
    apply List.map_congr_left
    intro c _
    by_cases hc : (jsWordChar c || jsSpaceChar c) = true
    · simp [Function.comp, hc]
    · have : jsWordChar '_' || jsSpaceChar '_' = true := by decide
      simp [Function.comp, hc, this]

theorem c1_operation_id_synthesis_witness :
    (emptyOperationObject.operationId = none ∨ emptyOperationObject.operationId = some "")
    ∧ (mkOperationRecord "/pets" "get" emptyOperationObject).operationId =
        asciiUpper "get" ++ "_" ++ sanitizePathForId "/pets" :=
  ⟨Or.inl rfl,
   (c1_operation_id_synthesis "/pets" "get" emptyOperationObject (Or.inl rfl)).1⟩

/-- Truthiness of an optional JS value implies its presence. -/
theorem truthyOpt_isSome {o : Option JsValue} (h : truthyOpt o = true) : o.isSome := by
  cases o with
  | none => simp [truthyOpt] at h
  | some v => rfl

/-- C6: conversion begins only if the document declares `openapi`, `info`
and `paths`; a document missing any of the three is rejected with an
error before any operation is extracted or any tool is built. -/
theorem c6_validation_gates_conversion (doc : OpenApiDocument) :
    ((doc.openapi = none ∨ doc.info = none ∨ doc.paths = none) →
      ∃ msg, mkConverter doc = .error msg)
    ∧ (∀ c, mkConverter doc = .ok c →
        doc.openapi.isSome ∧ doc.info.isSome ∧ doc.paths.isSome) := by
  constructor
  · intro h
    by_cases h1 : truthyOpt doc.openapi = true
    · by_cases h2 : truthyOpt doc.info = true
      · have hp : doc.paths = none := by
          rcases h with h | h | h
          · rw [h] at h1; simp [truthyOpt] at h1
          · rw [h] at h2; simp [truthyOpt] at h2
          · exact h
        exact ⟨"Missing \"paths\" field in spec",
          by simp [mkConverter, validateOpenAPISpec, h1, h2, hp]⟩
      · exact ⟨"Missing \"info\" field in spec",
          by simp [mkConverter, validateOpenAPISpec, h1, h2]⟩
    · exact ⟨"Missing \"openapi\" field in spec",
        by simp [mkConverter, validateOpenAPISpec, h1]⟩
  · intro c hc
    by_cases h1 : truthyOpt doc.openapi = true
    · by_cases h2 : truthyOpt doc.info = true
      · by_cases h3 : doc.paths.isNone
        · simp [mkConverter, validateOpenAPISpec, h1, h2, h3] at hc
        · refine ⟨truthyOpt_isSome h1, truthyOpt_isSome h2, ?_⟩
          cases hp : doc.paths with
          | none => rw [hp] at h3; simp at h3
          | some t => rfl
      · simp [mkConverter, validateOpenAPISpec, h1, h2] at hc
    · simp [mkConverter, validateOpenAPISpec, h1] at hc

/-- A document that lacks a path table. -/
def docMissingPaths : OpenApiDocument :=
  { openapi := some (.str "3.0.0")
    info := some (.obj (JsFields.ofList [("title", .str "t")]))
    paths := none
    securitySchemes := none }

theorem c6_validation_gates_conversion_witness :
    (docMissingPaths.openapi = none ∨ docMissingPaths.info = none
      ∨ docMissingPaths.paths = none)
    ∧ ∃ msg, mkConverter docMissingPaths = .error msg :=
  ⟨Or.inr (Or.inr rfl),
   (c6_validation_gates_conversion docMissingPaths).1 (Or.inr (Or.inr rfl))⟩

/-- C3: with an apiKey credential configured and resolved to query
placement, the marshaled query map always binds the scheme parameter name
to the credential, whatever the invocation arguments supply under that
name. -/
theorem c3_api_key_query_overrides (auth : HttpClientAuth) (op : OperationObject)
    (args : List (String × JsValue)) (key pname : String)
    (hkey : auth.apiKey = some key) (hkey2 : key ≠ "")
    (hname : auth.apiKeyParamName = some pname) (hname2 : pname ≠ "")
    (hloc : auth.apiKeyLocation = some "query") :
    jsLookup (extractQueryParams auth op args) pname = some (.str key) := by
  unfold extractQueryParams
  simp only [hkey, hname]
  rw [if_pos ⟨hkey2, hname2, hloc⟩]
  exact jsLookup_jsAssign_self _ _ _

/-- The auth state of a client resolved to `(api_key, query)` with
credential `abc`. -/
def authApiKeyQuery : HttpClientAuth :=
  { apiKey := some "abc", apiKeyParamName := some "api_key",
    apiKeyLocation := some "query" }

/-- A query parameter declaration named `n` with no schema constraints. -/
def queryParamNamed (n : String) : ParameterObject :=
  { name := n, location := "query", required := false,
    schema := none, description := none }

/-- An operation declaring `limit` and `api_key` query parameters. -/
def opTwoQueryParams : OperationObject :=
  { operationId := none, summary := none, description := none,
    parameters := some [queryParamNamed "limit", queryParamNamed "api_key"],
    requestBody := none }

theorem c3_api_key_query_overrides_witness :
    jsLookup
      (extractQueryParams authApiKeyQuery opTwoQueryParams
        [("limit", .num 5 0), ("api_key", .str "EVIL")])
      "api_key" = some (.str "abc") :=
  c3_api_key_query_overrides authApiKeyQuery opTwoQueryParams
    [("limit", .num 5 0), ("api_key", .str "EVIL")] "abc" "api_key"
    rfl (by decide) rfl (by decide) rfl

/-- C4: every path token is replaced by the URL-encoded argument value
(string-valued arguments), a missing argument substitutes the empty
string, and the two concrete examples of the claim hold. -/
theorem c4_path_substitution :
    (∀ (path : String) (args : List (String × JsValue)),
      (∀ kv ∈ args, ∃ s, kv.2 = JsValue.str s) →
      replacePathParams path args = specPathSubstitution path args)
    ∧ replacePathParams "/pets/\x7bpetId\x7d" [("petId", JsValue.str "42")] = "/pets/42"
    ∧ replacePathParams "/pets/\x7bpetId\x7d" [] = "/pets/" := by
  refine ⟨?_, by rfl, by rfl⟩
  intro path args h
  unfold replacePathParams specPathSubstitution
  congr 2
  funext n
  unfold pathTokenValue
  match hl : jsLookup args n with
  | none =>
      simp only [hl]
      rfl
  | some v =>
      obtain ⟨s, hs⟩ := h (n, v) (jsLookup_mem hl)
      simp only at hs
      subst hs
      simp only [hl]
      by_cases he : s = ""
      · subst he
        rfl
      · simp [jsTruthy, he, jsToString]

theorem c4_path_substitution_witness :
    (∀ kv ∈ ([("petId", JsValue.str "42")] : List (String × JsValue)),
      ∃ s, kv.2 = JsValue.str s)
    ∧ replacePathParams "/pets/\x7bpetId\x7d" [("petId", JsValue.str "42")] =
        specPathSubstitution "/pets/\x7bpetId\x7d" [("petId", JsValue.str "42")] :=
  ⟨by intro kv hkv
      simp only [List.mem_singleton] at hkv
      exact ⟨"42", by rw [hkv]⟩,
   c4_path_substitution.1 "/pets/\x7bpetId\x7d" [("petId", JsValue.str "42")]
     (by intro kv hkv
         simp only [List.mem_singleton] at hkv
         exact ⟨"42", by rw [hkv]⟩)⟩

/-- C9: a falsy argument bound to a path token — null, false, the empty
string, or 0 — substitutes the empty string, exactly like a missing
argument, so the value is never rendered into the URL. -/
theorem c9_falsy_path_argument (v : JsValue)
    (h : v = .null ∨ v = .bool false ∨ v = .str "" ∨ v = .num 0 0) :
    (∀ (args : List (String × JsValue)) (n : String),
      jsLookup args n = some v → pathTokenValue args n = "")
    ∧ replacePathParams "/pets/\x7bpetId\x7d" [("petId", v)] = "/pets/" := by
  have hfalsy : jsTruthy v = false := by
    rcases h with h | h | h | h <;> subst h <;> rfl
  constructor
  · intro args n hl
    unfold pathTokenValue
    rw [hl]
    simp only [hfalsy]
    rfl
  · rcases h with h | h | h | h <;> subst h <;> rfl

theorem c9_falsy_path_argument_witness :
    replacePathParams "/pets/\x7bpetId\x7d" [("petId", JsValue.num 0 0)] = "/pets/" :=
  (c9_falsy_path_argument (.num 0 0) (Or.inr (Or.inr (Or.inr rfl)))).2

/-- Reduction of `extractRequestBody` to the declared-properties branch:
for a JSON object body schema with properties and no truthy `$ref`, the
marshaled body is exactly the properties-branch assembly. -/
theorem extractRequestBody_props_branch (op : OperationObject)
    {rb : RequestBodyObject} {content : List (String × MediaTypeObject)}
    {mt : MediaTypeObject} {sch : SchemaObject}
    {props : List (String × SchemaObject)} (args : List (String × JsValue))
    (hrb : op.requestBody = some rb) (hc : rb.content = some content)
    (hjson : jsLookup content "application/json" = some mt)
    (hsch : mt.schema = some sch) (htyp : sch.typ = some "object")
    (hprops : sch.properties = some props) (href : sch.refTruthy = false) :
    extractRequestBody op args = some (.obj (JsFields.ofList (bodyFromProps props args))) := by
  unfold extractRequestBody
  simp only [hrb, hc, hjson, hsch, htyp, href, hprops]
  rw [if_neg (by decide), if_pos (by decide), if_neg (by simp)]
  rfl

/-- C5: for an object body schema with declared properties, the marshaled
body holds exactly the declared property names present in the arguments,
in schema order, and no other keys. -/
theorem c5_body_contains_exactly_present_props (op : OperationObject)
    {rb : RequestBodyObject} {content : List (String × MediaTypeObject)}
    {mt : MediaTypeObject} {sch : SchemaObject}
    {props : List (String × SchemaObject)} (args : List (String × JsValue))
    (hrb : op.requestBody = some rb) (hc : rb.content = some content)
    (hjson : jsLookup content "application/json" = some mt)
    (hsch : mt.schema = some sch) (htyp : sch.typ = some "object")
    (hprops : sch.properties = some props) (href : sch.refTruthy = false)
    (hnd : (props.map Prod.fst).Nodup) :
    ∃ b, extractRequestBody op args = some (.obj (JsFields.ofList b))
      ∧ b.map Prod.fst =
          (props.map Prod.fst).filter (fun n => (jsLookup args n).isSome) := by
  refine ⟨bodyFromProps props args,
    extractRequestBody_props_branch op args hrb hc hjson hsch htyp hprops href, ?_⟩
  have h := bodyFromProps_fold_keys args props [] hnd (fun n _ => rfl)
  unfold bodyFromProps
  rw [h]
  rfl

/-- A plain string schema fragment. -/
def schemaString : SchemaObject := .mk (some "string") none none none none none none

/-- An array-of-string schema fragment. -/
def schemaArrayOfString : SchemaObject :=
  .mk (some "array") none none (some schemaString) none none none

/-- The pet body schema of the claim:
`\x7btype: object, required: [name], properties: \x7bname: string, tag: string\x7d\x7d`. -/
def petBodySchema : SchemaObject :=
  .mk (some "object") none none none
    (some [("name", schemaString), ("tag", schemaString)]) (some ["name"]) none

/-- An operation with the pet JSON body schema. -/
def opPetBody : OperationObject :=
  { operationId := none, summary := none, description := none, parameters := none,
    requestBody := some
      { content := some [("application/json", { schema := some petBodySchema })],
        required := true } }

theorem c5_body_contains_exactly_present_props_witness :
    (∃ b, extractRequestBody opPetBody [("name", .str "Rex")] =
        some (.obj (JsFields.ofList b)) ∧ b.map Prod.fst = ["name"])
    ∧ extractRequestBody opPetBody [("name", .str "Rex")] =
        some (.obj (JsFields.ofList [("name", .str "Rex")])) := by
  constructor
  · obtain ⟨b, h1, h2⟩ :=
      c5_body_contains_exactly_present_props opPetBody
        [("name", .str "Rex")] rfl rfl rfl rfl rfl rfl rfl (by decide)
    exact ⟨b, h1, by rw [h2]; rfl⟩
  · rfl

/-- C7: an array-typed declared body property supplied as a string is
recovered: a JSON-array-looking string is parsed as JSON, any other
string is split on commas and trimmed, and a failed JSON parse falls
back to wrapping the original string as a single-element array — the
marshaler never rejects such input. -/
theorem c7_array_string_recovery (op : OperationObject)
    {rb : RequestBodyObject} {content : List (String × MediaTypeObject)}
    {mt : MediaTypeObject} {sch : SchemaObject}
    {props : List (String × SchemaObject)} (args : List (String × JsValue))
    (p : String) (psch : SchemaObject) (s : String)
    (hrb : op.requestBody = some rb) (hc : rb.content = some content)
    (hjson : jsLookup content "application/json" = some mt)
    (hsch : mt.schema = some sch) (htyp : sch.typ = some "object")
    (hprops : sch.properties = some props) (href : sch.refTruthy = false)
    (hnd : (props.map Prod.fst).Nodup)
    (hmem : (p, psch) ∈ props) (harr : psch.typ = some "array")
    (hval : jsLookup args p = some (.str s)) :
    ∃ b, extractRequestBody op args = some (.obj (JsFields.ofList b))
      ∧ jsLookup b p = some
          (if strStartsWith s "[" && strEndsWith s "]" then
            match jsonParse s with
            | some j => j
            | none => .arr (JsList.ofList [.str s])
          else
            .arr (JsList.ofList
              ((jsSplitCommas s).map (fun piece => .str (jsTrim piece))))) := by
  refine ⟨bodyFromProps props args,
    extractRequestBody_props_branch op args hrb hc hjson hsch htyp hprops href, ?_⟩
  have h := bodyFromProps_fold_lookup args p psch props [] hnd hmem
  unfold bodyFromProps
  rw [h]
  simp only [hval, harr]
  rfl

/-- An operation whose JSON body declares one array-of-string property
named tags. -/
def opTagsBody : OperationObject :=
  { operationId := none, summary := none, description := none, parameters := none,
    requestBody := some
      { content := some [("application/json",
          { schema := some (SchemaObject.mk (some "object") none none none
              (some [("tags", schemaArrayOfString)]) none none) })],
        required := true } }

theorem c7_array_string_recovery_witness :
    ∃ b, extractRequestBody opTagsBody [("tags", .str "a, b")]
        = some (.obj (JsFields.ofList b))
      ∧ jsLookup b "tags" =
          some (.arr (JsList.ofList [.str "a", .str "b"])) := by
  obtain ⟨b, h1, h2⟩ :=
    c7_array_string_recovery opTagsBody
      [("tags", .str "a, b")] "tags" schemaArrayOfString "a, b"
      rfl rfl rfl rfl rfl rfl rfl (by simp) (List.mem_singleton.mpr rfl) rfl rfl
  exact ⟨b, h1, by rw [h2]; rfl⟩

/-- The string `p` is a prefix of `s`. -/
def startsWithStr (s p : String) : Prop := ∃ t, s = p ++ t

/-- The string `needle` occurs inside `hay`. -/
def containsStr (hay needle : String) : Prop := ∃ a b, hay = a ++ needle ++ b

/-- C2: the invocation handler always returns a text content item and
never throws: on success the text is the decoded body (stringified when
not a string); on any failure the text starts with `Error: `; a non-2xx
response embeds the status code and the stringified response body. -/
theorem c2_invocation_always_text_result (o : HttpOutcome) :
    (toolInvocationResult o).type = "text"
    ∧ (∀ d, o = .success d →
        (toolInvocationResult o).text =
          match d with
          | .str s => s
          | other => jsonStringifyPretty other)
    ∧ ((∀ d, o ≠ .success d) → startsWithStr (toolInvocationResult o).text "Error: ")
    ∧ (∀ st d, o = .errorResponse st d →
        containsStr (toolInvocationResult o).text (toString st)
        ∧ containsStr (toolInvocationResult o).text (jsonStringify d)) := by
  refine ⟨?_, ?_, ?_, ?_⟩
  · cases o <;> rfl
  · intro d hd
    subst hd
    cases d <;> rfl
  · intro hno
    cases o with
    | success d => exact absurd rfl (hno d)
    | errorResponse st d => exact ⟨_, rfl⟩
    | errorNoResponse => exact ⟨_, rfl⟩
    | errorSetup m => exact ⟨_, rfl⟩
    | errorThrown m => exact ⟨_, rfl⟩
  · intro st d hd
    subst hd
    constructor
    · refine ⟨"Error: " ++ "API request failed with status ",
        ": " ++ jsonStringify d, ?_⟩
      show "Error: " ++ ("API request failed with status " ++ toString st ++ ": "
          ++ jsonStringify d) =
        "Error: " ++ "API request failed with status " ++ toString st
          ++ (": " ++ jsonStringify d)
      simp only [String.append_assoc]
    · refine ⟨"Error: " ++ ("API request failed with status " ++ toString st ++ ": "),
        "", ?_⟩
      show "Error: " ++ ("API request failed with status " ++ toString st ++ ": "
          ++ jsonStringify d) =
        "Error: " ++ ("API request failed with status " ++ toString st ++ ": ")
          ++ jsonStringify d ++ ""
      simp only [String.append_assoc]
      simp

theorem c2_invocation_always_text_result_witness :
    (toolInvocationResult (.errorResponse 404 (.str "pet not found"))).type = "text"
    ∧ startsWithStr
        (toolInvocationResult (.errorResponse 404 (.str "pet not found"))).text "Error: "
    ∧ containsStr
        (toolInvocationResult (.errorResponse 404 (.str "pet not found"))).text "404" := by
  obtain ⟨h1, _, h3, h4⟩ :=
    c2_invocation_always_text_result (.errorResponse 404 (.str "pet not found"))
  refine ⟨h1, h3 (fun d h => by cases h), ?_⟩
  have h5 := (h4 404 (.str "pet not found") rfl).1
  rw [show toString (404 : Nat) = "404" from rfl] at h5
  exact h5

/-- C8: a string parameter with an enum (and no `date-time` format)
translates to a rule accepting exactly the listed literals among
strings. -/
theorem c8_enum_rule_exact (p : ParameterObject) (sch : SchemaObject)
    (vs : List String) (hsch : p.schema = some sch)
    (htyp : sch.typ = some "string") (he : sch.enumVals = some vs)
    (hf : sch.format ≠ some "date-time") :
    ∃ r, convertParameterToZodSchema p = some (p.name, r)
      ∧ ∀ s, zodAccepts r (.str s) = true ↔ s ∈ vs := by
  unfold convertParameterToZodSchema
  simp only [hsch, htyp, he, if_true]
  rw [if_neg hf]
  cases hreq : p.required with
  | true =>
      refine ⟨.enumRule vs, by simp, ?_⟩
      intro s
      simp [zodAccepts]
  | false =>
      refine ⟨.optionalRule (.enumRule vs), by simp, ?_⟩
      intro s
      simp [zodAccepts]

/-- A string parameter declaring `enum: [a, b]` and nothing else. -/
def enumStatusParam : ParameterObject :=
  { name := "status", location := "query", required := true,
    schema := some (.mk (some "string") (some ["a", "b"]) none none none none none),
    description := none }

theorem c8_enum_rule_exact_witness :
    ∃ r, convertParameterToZodSchema enumStatusParam = some ("status", r)
      ∧ zodAccepts r (.str "a") = true ∧ zodAccepts r (.str "c") = false := by
  obtain ⟨r, h1, h2⟩ :=
    c8_enum_rule_exact enumStatusParam _ ["a", "b"] rfl rfl rfl
      (by simp [SchemaObject.format])
  refine ⟨r, h1, (h2 "a").mpr (by simp), ?_⟩
  cases hacc : zodAccepts r (.str "c") with
  | false => rfl
  | true =>
      have hmem := (h2 "c").mp hacc
      simp at hmem

/-- C10: a string parameter with both an enum and `format: date-time`
translates to the datetime rule alone — the enum is discarded, so
acceptance is exactly the ISO-8601 datetime test, independent of the
listed literals. -/
theorem c10_datetime_overrides_enum (p : ParameterObject) (sch : SchemaObject)
    (vs : List String) (hsch : p.schema = some sch)
    (htyp : sch.typ = some "string") (he : sch.enumVals = some vs)
    (hf : sch.format = some "date-time") :
    ∃ r, convertParameterToZodSchema p = some (p.name, r)
      ∧ ∀ s, zodAccepts r (.str s) = true ↔ isZodDatetimeString s = true := by
  unfold convertParameterToZodSchema
  simp only [hsch, htyp, he, if_true]
  rw [if_pos hf]
  cases hreq : p.required with
  | true =>
      refine ⟨.datetimeRule, by simp, ?_⟩
      intro s
      simp [zodAccepts]
  | false =>
      refine ⟨.optionalRule .datetimeRule, by simp, ?_⟩
      intro s
      simp [zodAccepts]

/-- A string parameter declaring both `enum: [a, b]` and
`format: date-time`. -/
def enumDatetimeParam : ParameterObject :=
  { name := "when", location := "query", required := true,
    schema := some (.mk (some "string") (some ["a", "b"]) (some "date-time")
      none none none none),
    description := none }

theorem c10_datetime_overrides_enum_witness :
    ∃ r, convertParameterToZodSchema enumDatetimeParam = some ("when", r)
      ∧ zodAccepts r (.str "2024-01-01T00:00:00Z") = true
      ∧ zodAccepts r (.str "a") = false := by
  obtain ⟨r, h1, h2⟩ :=
    c10_datetime_overrides_enum enumDatetimeParam _ ["a", "b"] rfl rfl rfl rfl
  refine ⟨r, h1, (h2 "2024-01-01T00:00:00Z").mpr (by rfl), ?_⟩
  cases hacc : zodAccepts r (.str "a") with
  | false => rfl
  | true =>
      have hiso := (h2 "a").mp hacc
      simp [isZodDatetimeString, consumeDigits] at hiso
